import Mathlib

/-!
# Verification of the tagcode bit-extraction engine and SGTIN codec

A shallow embedding of the `bitextract` package (BitExtractor, BitExploder,
BitReader) and the `epc` package (SGTIN codec, packed-ASCII decoding, GS1
escaping) of the tagcode repository, together with theorems settling the
behavioural claims about them.

Go `byte` values are modelled as `Nat` (with explicit `% 256` where the Go
code's byte arithmetic overflows), Go `int` values as `Int` (using `Int.tdiv`
and `Int.tmod`, the truncated division/remainder Go uses) or as `Nat` where
the Go value is produced by an unsigned extraction.  Fallible Go functions
(ones returning `error`) return `Except`; Go panics are modelled by `Option`,
with `none` marking the panic.
-/

namespace Tagcode

instance {ε α : Type} [DecidableEq ε] [DecidableEq α] : DecidableEq (Except ε α) := fun a b =>
  match a, b with
  | Except.ok x, Except.ok y =>
    if h : x = y then isTrue (by rw [h]) else isFalse (by intro hc; cases hc; exact h rfl)
  | Except.error x, Except.error y =>
    if h : x = y then isTrue (by rw [h]) else isFalse (by intro hc; cases hc; exact h rfl)
  | Except.ok _, Except.error _ => isFalse (by intro hc; cases hc)
  | Except.error _, Except.ok _ => isFalse (by intro hc; cases hc)

/-- Character for a decimal digit (`0 ≤ n ≤ 9`). -/
def digitChar (n : Nat) : Char := Char.ofNat (48 + n % 10)

/-- Decimal digits of `n`, least significant first (empty for 0), with an
iteration bound (`n / 10 < n` for `n ≥ 1`, so a bound of `n` is exact);
structural recursion on the bound keeps the definition kernel-evaluable. -/
def natDigitsRevF : Nat → Nat → List Char
  | 0, _ => []
  | fuel + 1, n => if n = 0 then [] else digitChar (n % 10) :: natDigitsRevF fuel (n / 10)

/-- Decimal digits of `n`, least significant first (empty for 0). -/
def natDigitsRev (n : Nat) : List Char := natDigitsRevF n n

/-- Decimal rendering of a `Nat`, as Go `fmt.Sprintf("%d", n)` produces. -/
def natStr (n : Nat) : String := if n = 0 then "0" else ⟨(natDigitsRev n).reverse⟩

/-- Decimal rendering of an `Int`, as Go `fmt.Sprintf("%d", n)` produces. -/
def intStr (n : Int) : String := if n < 0 then "-" ++ natStr n.natAbs else natStr n.toNat

/-- Left-pad a string with zeros to the given width. -/
def padZero (w : Nat) (s : String) : String := ⟨List.replicate (w - s.length) '0'⟩ ++ s

/-- Go `fmt.Sprintf("%0*d", w, n)`: zero-padded decimal of width `w`
(for a negative value the sign occupies one of the `w` columns). -/
def goFmt0 (w : Nat) (n : Int) : String :=
  if n < 0 then "-" ++ padZero (w - 1) (natStr n.natAbs) else padZero w (natStr n.toNat)

/-- Value of a hexadecimal digit character, if it is one. -/
def hexDigit (c : Char) : Option Nat :=
  if 48 ≤ c.toNat ∧ c.toNat ≤ 57 then some (c.toNat - 48)
  else if 97 ≤ c.toNat ∧ c.toNat ≤ 102 then some (c.toNat - 87)
  else if 65 ≤ c.toNat ∧ c.toNat ≤ 70 then some (c.toNat - 55)
  else none

/-- Go `hex.DecodeString`: decodes pairs of hex digits to bytes; fails on a
character that is not a hex digit or an odd-length input. -/
def hexDecode : List Char → Option (List Nat)
  | [] => some []
  | [_] => none
  | a :: b :: rest => do
    let hi ← hexDigit a
    let lo ← hexDigit b
    let tail ← hexDecode rest
    pure ((hi * 16 + lo) :: tail)

end Tagcode

namespace Bitextract

/-- Alignment classification of a `BitExtractor`
(`srcAligned` / `srcBiasPrev` / `srcBiasNext` in the Go source). -/
inductive Bias where
  | aligned
  | biasPrev
  | biasNext
deriving DecidableEq, Repr

/-- The `BitExtractor` struct of `bitextract.go`: one contiguous bit range
within a byte buffer, plus the derived quantities `SetBounds` computes. -/
structure BitExtractor where
  bitStart : Nat
  byteStart : Nat
  srcLen : Nat
  dstLen : Nat
  bias : Bias
  rshift : Nat
  lshift : Nat
  mask : Nat
deriving DecidableEq, Repr

/-- `SetBounds(start, len)` / `New(start, len)` of `bitextract.go`.  The Go
function panics for `start < 0` or `len < 1`; with `Nat` arguments the former
cannot arise and theorems carry `1 ≤ len` where it matters.  `ifAligned(x,a,b)`
is rendered as an `if x % 8 = 0` conditional. -/
def mkBitExtractor (start len : Nat) : BitExtractor :=
  let byteStart := start / 8
  let dstLen := len / 8 + (if len % 8 = 0 then 0 else 1)
  let srcEndByte := (start + len) / 8 - (if (start + len) % 8 = 0 then 1 else 0)
  let srcLen := srcEndByte - byteStart + 1
  let srcEndOffset := (start + len - 1) % 8
  let rshift := 8 - srcEndOffset - 1
  let lshift := srcEndOffset + 1
  let mask := if len % 8 = 0 then 255 else 2 ^ (len % 8) - 1
  let bias := if rshift = 0 then Bias.aligned
              else if srcLen = dstLen then Bias.biasPrev
              else Bias.biasNext
  ⟨start, byteStart, srcLen, dstLen, bias, rshift, lshift, mask⟩

/-- The write loop of `ExtractTo` (the part after its two length checks):
writes the `dstLen` destination bytes in place according to the alignment
case, then masks the first destination byte.  Bytes are `Nat`s; the Go
`byte` left-shift overflow is the explicit `% 256`. -/
def extractToCore (be : BitExtractor) (dest src : List Nat) : List Nat :=
  let d :=
    match be.bias with
    | Bias.aligned =>
        (List.range be.dstLen).foldl
          (fun (q : List Nat) i => q.set i (src.getD (be.byteStart + i) 0)) dest
    | Bias.biasPrev =>
        let q0 := dest.set 0 (src.getD be.byteStart 0 >>> be.rshift)
        (List.range (be.dstLen - 1)).foldl
          (fun (q : List Nat) k =>
            q.set (k + 1)
              ((src.getD (k + 1 + be.byteStart - 1) 0 <<< (8 - be.rshift)) % 256 |||
                src.getD (k + 1 + be.byteStart) 0 >>> be.rshift)) q0
    | Bias.biasNext =>
        (List.range be.dstLen).foldl
          (fun (q : List Nat) i =>
            q.set i
              ((src.getD (i + be.byteStart) 0 <<< (8 - be.rshift)) % 256 |||
                src.getD (i + be.byteStart + 1) 0 >>> be.rshift)) dest
  d.set 0 (d.getD 0 0 &&& be.mask)

/-- `ExtractTo(dest, src)` of `bitextract.go`: `none` models the panic when
`src` is shorter than `byteStart + srcLen` or `dest` shorter than `dstLen`. -/
def extractTo (be : BitExtractor) (dest src : List Nat) : Option (List Nat) :=
  if src.length < be.srcLen + be.byteStart then none
  else if dest.length < be.dstLen then none
  else some (extractToCore be dest src)

/-- `Extract(src)`: extraction into a fresh right-sized zero buffer
(`Buffer()` is `make([]byte, dstLen)`, i.e. zeros). -/
def extract (be : BitExtractor) (src : List Nat) : Option (List Nat) :=
  extractTo be (List.replicate be.dstLen 0) src

/-- Big-endian value of a byte list. -/
def beVal (l : List Nat) : Nat := l.foldl (fun a b => 256 * a + b) 0

/-- `ExtractUInt64(src)`: extract into the tail of an 8-byte zero buffer and
read the whole buffer back as a big-endian integer. -/
def extractUInt64 (be : BitExtractor) (src : List Nat) : Option Nat :=
  (extract be src).map fun l => beVal (List.replicate (8 - be.dstLen) 0 ++ l)

/-- The pure value of the bytes `ExtractTo` computes (the in-place loop run
on a fresh zero destination buffer). -/
def extractBytes (be : BitExtractor) (src : List Nat) : List Nat :=
  extractToCore be (List.replicate be.dstLen 0) src

/-- The integer value `ExtractUInt64` computes when its checks pass. -/
def extractVal (be : BitExtractor) (src : List Nat) : Nat :=
  beVal (List.replicate (8 - be.dstLen) 0 ++ extractBytes be src)

end Bitextract

section C6

open Bitextract

/-- C6: widening a `BitExtractor`'s bit length by 8 adds exactly one
destination byte and leaves `byteStart`, `rshift`, `lshift` and `mask`
unchanged. -/
theorem bitExtractor_len_plus8 (start len : Nat) (h : 1 ≤ len) :
    (mkBitExtractor start (len + 8)).dstLen = (mkBitExtractor start len).dstLen + 1 ∧
    (mkBitExtractor start (len + 8)).byteStart = (mkBitExtractor start len).byteStart ∧
    (mkBitExtractor start (len + 8)).rshift = (mkBitExtractor start len).rshift ∧
    (mkBitExtractor start (len + 8)).lshift = (mkBitExtractor start len).lshift ∧
    (mkBitExtractor start (len + 8)).mask = (mkBitExtractor start len).mask := by
  refine ⟨?_, ?_, ?_, ?_, ?_⟩
  · by_cases hc : len % 8 = 0 <;> simp [mkBitExtractor, Nat.add_mod_right, hc]
  · rfl
  · simp only [mkBitExtractor]; omega
  · simp only [mkBitExtractor]; omega
  · simp [mkBitExtractor, Nat.add_mod_right]

/-- Witness for C6 at `start = 3`, `len = 5`. -/
theorem bitExtractor_len_plus8_witness :
    (mkBitExtractor 3 (5 + 8)).dstLen = (mkBitExtractor 3 5).dstLen + 1 ∧
    (mkBitExtractor 3 (5 + 8)).byteStart = (mkBitExtractor 3 5).byteStart ∧
    (mkBitExtractor 3 (5 + 8)).rshift = (mkBitExtractor 3 5).rshift ∧
    (mkBitExtractor 3 (5 + 8)).lshift = (mkBitExtractor 3 5).lshift ∧
    (mkBitExtractor 3 (5 + 8)).mask = (mkBitExtractor 3 5).mask :=
  bitExtractor_len_plus8 3 5 (by decide)

end C6

namespace Bitextract

/-- The `BitExploder` struct: an ordered list of extractors plus the cached
total bit length and total exploded byte length. -/
structure BitExploder where
  bitLength : Nat
  expByteLen : Nat
  extractors : List BitExtractor
deriving DecidableEq, Repr

/-- The loop of `SetWidths`: builds one extractor per width at cumulative bit
offsets, accumulating the total bit length and exploded byte length; fails on
a non-positive width.  Returns (extractors, total bit length, exploded byte
length) for the suffix of widths starting at bit offset `off`. -/
def setWidthsAux : List Int → Nat → Option (List BitExtractor × Nat × Nat)
  | [], off => some ([], off, 0)
  | w :: ws, off =>
    if w ≤ 0 then none
    else
      (setWidthsAux ws (off + w.toNat)).map fun r =>
        let be := mkBitExtractor off w.toNat
        (be :: r.1, r.2.1, be.dstLen + r.2.2)

/-- `SetWidths` / `NewBitExploder`: fails on an empty widths list or any
non-positive width. -/
def setWidths (widths : List Int) : Option BitExploder :=
  if widths.isEmpty then none
  else (setWidthsAux widths 0).map fun r => ⟨r.2.1, r.2.2, r.1⟩

/-- The `BitReader` struct: a BitExploder, a cursor, and the bound data. -/
structure BitReader where
  exp : BitExploder
  field : Nat
  data : List Nat
deriving DecidableEq, Repr

/-- Result of a `BitReader.Read` call: `io.EOF`, `io.ErrShortBuffer`, or
success reporting the number of bytes written. -/
inductive ReadResult where
  | eof
  | shortBuffer
  | ok (n : Nat)
deriving DecidableEq, Repr

/-- `BitReader.Read(p)`.  Returns the read outcome, the updated reader, and
the updated buffer contents; `none` models the panic `ExtractTo` raises when
the bound data is too short for the current field.  The Go code zeroes
`p[0 : len(p)-dstLen]` and extracts into the slice `p[len(p)-dstLen:]`;
the result buffer is reassembled from those two regions. -/
def read (r : BitReader) (p : List Nat) : Option (ReadResult × BitReader × List Nat) :=
  if r.exp.extractors.length ≤ r.field then some (ReadResult.eof, r, p)
  else
    let ex := r.exp.extractors.getD r.field (mkBitExtractor 0 1)
    if p.length < ex.dstLen then some (ReadResult.shortBuffer, r, p)
    else
      let m := p.length - ex.dstLen
      let cleared := (List.range m).foldl (fun (q : List Nat) i => q.set i 0) p
      (extractTo ex (cleared.drop m) r.data).map fun d =>
        (ReadResult.ok p.length, ⟨r.exp, r.field + 1, r.data⟩, cleared.take m ++ d)

end Bitextract

namespace Epc

open Bitextract Tagcode

/-- The eight pre-built 7-bit extractors of `ascii.go`, one per sub-byte
alignment. -/
def asciiExtracts : List BitExtractor :=
  [mkBitExtractor 0 7, mkBitExtractor 7 7, mkBitExtractor 6 7, mkBitExtractor 5 7,
   mkBitExtractor 4 7, mkBitExtractor 3 7, mkBitExtractor 2 7, mkBitExtractor 1 7]

/-- The running null-terminator bookkeeping of `DecodeASCIIAt`'s loop:
the index of the first null byte (or the length if none) and whether any
non-null byte follows a null. -/
def nullInfo (out : List Nat) : Nat × Bool :=
  let r := out.foldl
    (fun (a : Nat × Option Nat × Bool) c =>
      match a with
      | (i, none, ex) => if c = 0 then (i + 1, some i, ex) else (i + 1, none, ex)
      | (i, some t, ex) => if c = 0 then (i + 1, some t, ex) else (i + 1, some t, true))
    (0, none, false)
  (r.2.1.getD out.length, r.2.2)

/-- The body of `DecodeASCIIAt` (after the offset range check): the decoded
7-bit characters, the first-null index, and the chars-after-null flag.
The per-character `ExtractTo` bounds checks always pass here (each character's
bits lie inside `data` by construction of `outLen`), so the pure extraction
value is used directly. -/
def asciiAt (data : List Nat) (offset : Nat) : List Nat × Nat × Bool :=
  let outLen := (data.length * 8 - offset) / 7
  if outLen = 0 then ([], 0, data.length == 1 && data.getD 0 0 != 0)
  else
    let out := (List.range outLen).map fun i =>
      let inbyte := i - (i + 7 - offset) / 8
      let ext := ((8 - offset) % 8 + i) % 8
      (extractBytes (asciiExtracts.getD ext (mkBitExtractor 0 1)) (data.drop inbyte)).getD 0 0
    (out, (nullInfo out).1, (nullInfo out).2)

/-- `DecodeASCIIAt(data, offset)` of `ascii.go`: `none` models the panic for
an offset outside `[0, 7]`.  The decoded text is kept as its byte list. -/
def decodeASCIIAt (data : List Nat) (offset : Nat) : Option (List Nat × Nat × Bool) :=
  if 7 < offset then none else some (asciiAt data offset)

/-- Go `string(outdata)` for a list of 7-bit character codes. -/
def asciiStr (l : List Nat) : String := ⟨l.map Char.ofNat⟩

/-- One step of the `gs1Escaper` replacer (canonical version, which also
deletes null bytes): the replacement text for a single character. -/
def escChar (c : Char) : List Char :=
  if c = '"' then ['%', '2', '2']
  else if c = '#' then ['%', '2', '3']
  else if c = '%' then ['%', '2', '5']
  else if c = '&' then ['%', '2', '6']
  else if c = '/' then ['%', '2', 'F']
  else if c = '<' then ['%', '3', 'C']
  else if c = '>' then ['%', '3', 'E']
  else if c = '?' then ['%', '3', 'F']
  else if c = Char.ofNat 0 then []
  else [c]

/-- The `gs1Escaper.Replace` scan: since every pattern is a single distinct
character, the replacer substitutes each character independently. -/
def escList : List Char → List Char
  | [] => []
  | c :: rest => escChar c ++ escList rest

/-- `EscapeGS1`. -/
def escapeGS1 (s : String) : String := ⟨escList s.data⟩

/-- The character a `%xy` escape sequence of the `gs1Unescaper` stands for,
if `xy` is one of its eight patterns. -/
def unescPair (a b : Char) : Option Char :=
  if a = '2' then
    if b = '2' then some '"'
    else if b = '3' then some '#'
    else if b = '5' then some '%'
    else if b = '6' then some '&'
    else if b = 'F' then some '/'
    else none
  else if a = '3' then
    if b = 'C' then some '<'
    else if b = 'E' then some '>'
    else if b = 'F' then some '?'
    else none
  else none

/-- The `gs1Unescaper.Replace` scan: at each position the replacer either
consumes a full three-character `%xy` pattern or emits one character and
moves on (all its patterns are three characters long and start with `%`). -/
def unescListF : Nat → List Char → List Char
  | 0, l => l
  | _ + 1, [] => []
  | fuel + 1, c :: rest =>
    if c = '%' then
      match rest with
      | a :: b :: rest2 =>
        match unescPair a b with
        | some d => d :: unescListF fuel rest2
        | none => c :: unescListF fuel rest
      | _ => c :: unescListF fuel rest
    else c :: unescListF fuel rest

/-- The unescape scan over a whole list; every step consumes at least one
character, so a step bound of the list's length is exact. -/
def unescList (l : List Char) : List Char := unescListF l.length l

/-- `UnescapeGS1`. -/
def unescapeGS1 (s : String) : String := ⟨unescList s.data⟩

/-- Membership in the `gs1AICharSet` table (valid characters for GS1
Application Identifiers), by character code: `! " % & ' ( ) * + , - . /`
(33–47 without `#` and `$`), `: ; < = > ?` (58–63), `_` (95), digits,
upper-case and lower-case letters. -/
def gs1AISet (c : Nat) : Bool :=
  (33 ≤ c && c ≤ 47 && !(c == 35) && !(c == 36)) ||
  (48 ≤ c && c ≤ 57) || (58 ≤ c && c ≤ 63) ||
  (65 ≤ c && c ≤ 90) || (c == 95) || (97 ≤ c && c ≤ 122)

/-- The scan of `IsGS1AIEncodable`: a null byte may only be followed by more
null bytes; any other byte must be `≤ 127` and in the character set. -/
def aiEncOK : List Nat → Bool
  | [] => true
  | c :: rest =>
    if c = 0 then rest.all (fun x => x == 0)
    else (decide (c ≤ 127) && gs1AISet c) && aiEncOK rest

/-- `IsGS1AIEncodable(s)`. -/
def isGS1AIEncodable (s : String) : Bool := aiEncOK (s.data.map Char.toNat)

/-- The `SGTIN` struct of `sgtin.go`.  `filter` is the underlying `int` of a
Go `FilterValue`; `companyPfx` renders the source's company-prefix field
(whose Go name ends in a reserved word of this development's toolchain). -/
structure SGTIN where
  filter : Int
  partition : Int
  companyPfx : Int
  indicator : Int
  itemRef : Int
  serial : String
deriving DecidableEq, Repr

/-- `FilterValue.IsValid`: inside `[Other, UnitPack] = [0, 7]` and not one of
the two reserved values 3 and 5. -/
def filterIsValid (fv : Int) : Bool :=
  0 ≤ fv && fv ≤ 7 && !(fv == 3 || fv == 5)

/-- The `maxItems` table: `maxItems[p] = 10^p` for partitions 0–6
(out-of-range Go indexing would panic; all callers guard the index). -/
def maxItems : Nat → Int
  | 0 => 1
  | 1 => 10
  | 2 => 100
  | 3 => 1000
  | 4 => 10000
  | 5 => 100000
  | 6 => 1000000
  | _ => 0

/-- The `maxPrefix` table (maximum company prefix per partition). -/
def maxPfx : Nat → Int
  | 0 => 999999999999
  | 1 => 99999999999
  | 2 => 9999999999
  | 3 => 999999999
  | 4 => 99999999
  | 5 => 9999999
  | 6 => 999999
  | _ => 0

/-- The possible error returns of `SGTIN.ValidateRanges`, one per `return`
branch, in source order. -/
inductive VErr where
  | indicator
  | filter
  | partition
  | itemRef
  | companyPfx
  | emptySerial
  | longSerial
  | badChars
deriving DecidableEq, Repr

/-- `SGTIN.ValidateRanges` (the canonical, filter-checking variant):
`none` means the ranges are valid, `some e` names the failing check. -/
def validateRanges (s : SGTIN) : Option VErr :=
  if s.indicator < 0 ∨ 9 < s.indicator then some VErr.indicator
  else if ¬ filterIsValid s.filter then some VErr.filter
  else if s.partition < 0 ∨ 6 < s.partition then some VErr.partition
  else if s.itemRef < 0 ∨ maxItems s.partition.toNat - 1 < s.itemRef then some VErr.itemRef
  else if s.companyPfx < 0 ∨ maxPfx s.partition.toNat < s.companyPfx then some VErr.companyPfx
  else if s.serial = "" then some VErr.emptySerial
  else if 20 < s.serial.length then some VErr.longSerial
  else if ¬ isGS1AIEncodable s.serial then some VErr.badChars
  else none

/-- The loop of `checkSum(n, d1)`, entered with `n > 0`; `i` is the loop
counter and the first argument bounds the remaining iterations (`n` shrinks
strictly each pass, so a bound of `n` is enough).  The Go weight
`(((d1-i)&1)<<1)|1` equals `2*((d1-i)&&&1) + 1` since `(d1-i)&&&1` is a
single bit. -/
def checkSumAux : Nat → Nat → Int → Int → Int
  | 0, _, _, _ => 0
  | fuel + 1, n, d1, i =>
    if n = 0 then 0
    else ((n : Int) % 10) * (2 * Int.land (d1 - i) 1 + 1) + checkSumAux fuel (n / 10) d1 (i + 1)

/-- `checkSum(n, d1)` of `sgtin.go`: the contribution of component `n`,
whose ones place sits at 1-indexed GTIN digit position `d1`, to the GS1
check sum. -/
def checkSum (n d1 : Int) : Int :=
  if n ≤ 0 then 0 else checkSumAux n.toNat n.toNat d1 0

/-- `SGTIN.checkDigit`: item reference anchored at digit position 1, company
prefix at `13 - partition`, indicator at 13; `Int.tmod` is Go's `%`. -/
def checkDigit (s : SGTIN) : Int :=
  let sum := checkSum s.itemRef 1 + checkSum s.companyPfx (13 - s.partition) +
    checkSum s.indicator 13
  Int.tmod (10 - Int.tmod sum 10) 10

/-- The pure-identity URI prefix `urn:epc:id:sgtin`. -/
def sgtinURIPfx : String := "urn:epc:id:sgtin"

/-- `SGTIN.GTIN`: indicator, zero-padded company prefix, zero-padded item
reference (omitted for partition 0), check digit. -/
def gtin (s : SGTIN) : String :=
  if s.partition = 0 then
    intStr s.indicator ++ goFmt0 12 s.companyPfx ++ intStr (checkDigit s)
  else
    intStr s.indicator ++ goFmt0 (12 - s.partition).toNat s.companyPfx ++
      goFmt0 s.partition.toNat s.itemRef ++ intStr (checkDigit s)

/-- `SGTIN.URI` (canonical variant, which escapes the serial). -/
def uri (s : SGTIN) : String :=
  if s.partition = 0 then
    sgtinURIPfx ++ ":" ++ goFmt0 (12 - s.partition).toNat s.companyPfx ++ "." ++
      intStr s.indicator ++ "." ++ escapeGS1 s.serial
  else
    sgtinURIPfx ++ ":" ++ goFmt0 (12 - s.partition).toNat s.companyPfx ++ "." ++
      intStr s.indicator ++ goFmt0 s.partition.toNat s.itemRef ++ "." ++
      escapeGS1 s.serial

/-- Bit-layout constants of `sgtin.go`. -/
def gcpStartBit : Nat := 8 + 3 + 3

/-- First bit of the serial region (`gcpStartBit + 44 = 58`). -/
def serialStartBit : Nat := gcpStartBit + 44

/-- `serialStartBit / 8 = 7`. -/
def serialStartByte : Nat := serialStartBit / 8

/-- `serialStartBit % 8 = 2`. -/
def serialOffsetBit : Nat := serialStartBit % 8

/-- `filterExt = bitextract.New(filterStartBit, filterLen)`. -/
def filterExt : BitExtractor := mkBitExtractor 8 3

/-- `partitionExt = bitextract.New(partitionStartBit, partitionLen)`. -/
def partitionExt : BitExtractor := mkBitExtractor 11 3

/-- `serial96Ext = bitextract.New(serialStartBit, 96 - serialStartBit)`. -/
def serial96Ext : BitExtractor := mkBitExtractor serialStartBit 38

/-- The `companyExt` table: company-prefix extractors per partition. -/
def companyExtList : List BitExtractor :=
  [mkBitExtractor gcpStartBit 40, mkBitExtractor gcpStartBit 37,
   mkBitExtractor gcpStartBit 34, mkBitExtractor gcpStartBit 30,
   mkBitExtractor gcpStartBit 27, mkBitExtractor gcpStartBit 24,
   mkBitExtractor gcpStartBit 20]

/-- `companyExt[p]` for a guarded index `p ≤ 6`. -/
def companyExt (p : Nat) : BitExtractor := companyExtList.getD p (mkBitExtractor 0 1)

/-- The `iirExt` table: indicator/item-reference extractors per partition. -/
def iirExtList : List BitExtractor :=
  [mkBitExtractor (serialStartBit - 4) 4, mkBitExtractor (serialStartBit - 7) 7,
   mkBitExtractor (serialStartBit - 10) 10, mkBitExtractor (serialStartBit - 14) 14,
   mkBitExtractor (serialStartBit - 17) 17, mkBitExtractor (serialStartBit - 20) 20,
   mkBitExtractor (serialStartBit - 24) 24]

/-- `iirExt[p]` for a guarded index `p ≤ 6`. -/
def iirExt (p : Nat) : BitExtractor := iirExtList.getD p (mkBitExtractor 0 1)

/-- The error returns of `DecodeSGTIN` / `DecodeSGTINString`. -/
inductive DecodeErr where
  | badHex
  | noData
  | badLen96
  | badLen198
  | badHeader
  | badPartition
deriving DecidableEq, Repr

/-- The tail of `DecodeSGTIN` after the serial has been decoded: extract
filter and partition, reject a partition above 6, then split the 44-bit
region with the partition-selected extractor pair and split indicator from
item reference.  `none` models an `ExtractUInt64` panic (unreachable for the
lengths the header check admits). -/
def decodeSGTINBody (b : List Nat) (serial : String) : Option (Except DecodeErr SGTIN) :=
  match extractUInt64 filterExt b, extractUInt64 partitionExt b with
  | some f, some p =>
    if 6 < p then some (Except.error DecodeErr.badPartition)
    else
      match extractUInt64 (companyExt p) b, extractUInt64 (iirExt p) b with
      | some cp, some iir =>
        let ind : Int := Int.tdiv (iir : Int) (maxItems p)
        let ir : Int := if 0 < p then (iir : Int) - ind * maxItems p * 10 else 0
        some (Except.ok ⟨(f : Int), (p : Int), (cp : Int), ind, ir, serial⟩)
      | _, _ => none
  | _, _ => none

/-- `DecodeSGTIN(b)` of `sgtin.go` (canonical variant): rejects empty input,
unknown header bytes, wrong total length for the header's scheme, and a
partition above 6; everything else decodes. -/
def decodeSGTIN (b : List Nat) : Option (Except DecodeErr SGTIN) :=
  if b.length = 0 then some (Except.error DecodeErr.noData)
  else if b.getD 0 0 = 0x30 then
    if b.length ≠ 12 then some (Except.error DecodeErr.badLen96)
    else
      match extractUInt64 serial96Ext b with
      | some sv => decodeSGTINBody b (natStr sv)
      | none => none
  else if b.getD 0 0 = 0x36 then
    if b.length ≠ 25 then some (Except.error DecodeErr.badLen198)
    else
      match decodeASCIIAt (b.drop serialStartByte) serialOffsetBit with
      | some (sl, n, extra) =>
        decodeSGTINBody b (if extra then asciiStr sl else asciiStr (sl.take n))
      | none => none
  else some (Except.error DecodeErr.badHeader)

/-- `DecodeSGTINString(epc)`: hex-decode, then `DecodeSGTIN`. -/
def decodeSGTINString (s : String) : Option (Except DecodeErr SGTIN) :=
  match hexDecode s.data with
  | none => some (Except.error DecodeErr.badHex)
  | some b => decodeSGTIN b

end Epc

namespace Bitextract

theorem extractTo_eq_some (be : BitExtractor) (dest src : List Nat)
    (h1 : be.srcLen + be.byteStart ≤ src.length) (h2 : be.dstLen ≤ dest.length) :
    extractTo be dest src = some (extractToCore be dest src) := by
  unfold extractTo
  rw [if_neg (by omega), if_neg (by omega)]

theorem extract_eq_some (be : BitExtractor) (src : List Nat)
    (h1 : be.srcLen + be.byteStart ≤ src.length) :
    extract be src = some (extractBytes be src) :=
  extractTo_eq_some be (List.replicate be.dstLen 0) src h1 (by simp)

theorem extractUInt64_eq_some (be : BitExtractor) (src : List Nat)
    (h1 : be.srcLen + be.byteStart ≤ src.length) :
    extractUInt64 be src = some (extractVal be src) := by
  unfold extractUInt64 extractVal
  rw [extract_eq_some be src h1]
  rfl

theorem extractUInt64_some_val {be : BitExtractor} {src : List Nat} {v : Nat}
    (h : extractUInt64 be src = some v) : v = extractVal be src := by
  unfold extractUInt64 at h
  cases hx : extract be src with
  | none => rw [hx] at h; simp at h
  | some l =>
    rw [hx] at h
    have h : beVal (List.replicate (8 - be.dstLen) 0 ++ l) = v := by simpa using h
    unfold extract extractTo at hx
    split at hx
    · exact absurd hx (by simp)
    · split at hx
      · exact absurd hx (by simp)
      · simp only [Option.some_inj] at hx
        subst hx
        exact h.symm

end Bitextract

section C5

open Tagcode Bitextract Epc

/-- C5: decoding the hex EPC `300000000000044000000001` succeeds, yielding the
SGTIN with filter 0, partition 0, company prefix 1, indicator 1, item
reference 0 and serial `"1"`, whose GTIN is `10000000000014` and whose URI is
`urn:epc:id:sgtin:000000000001.1.1`. -/
theorem sgtin_concrete_scenario :
    decodeSGTINString "300000000000044000000001" =
      some (Except.ok ⟨0, 0, 1, 1, 0, "1"⟩) ∧
    gtin ⟨0, 0, 1, 1, 0, "1"⟩ = "10000000000014" ∧
    uri ⟨0, 0, 1, 1, 0, "1"⟩ = "urn:epc:id:sgtin:000000000001.1.1" := by
  refine ⟨by decide, by decide, by decide⟩

end C5

namespace Epc

open Bitextract

/-- Inversion of `decodeSGTINBody`: a successful decode determines every
field of the result from the extracted filter, partition, company-prefix and
indicator/item-reference values. -/
theorem decodeSGTINBody_ok {b : List Nat} {serial : String} {s : SGTIN}
    (h : decodeSGTINBody b serial = some (Except.ok s)) :
    ∃ f p cp iir,
      extractUInt64 filterExt b = some f ∧
      extractUInt64 partitionExt b = some p ∧ p ≤ 6 ∧
      extractUInt64 (companyExt p) b = some cp ∧
      extractUInt64 (iirExt p) b = some iir ∧
      s = ⟨(f : Int), (p : Int), (cp : Int), Int.tdiv (iir : Int) (maxItems p),
            (if 0 < p then (iir : Int) - Int.tdiv (iir : Int) (maxItems p) * maxItems p * 10
             else 0), serial⟩ := by
  unfold decodeSGTINBody at h
  cases hf : extractUInt64 filterExt b with
  | none => rw [hf] at h; exact absurd h (by simp)
  | some f =>
    cases hp : extractUInt64 partitionExt b with
    | none => rw [hf, hp] at h; exact absurd h (by simp)
    | some p =>
      rw [hf, hp] at h
      dsimp only at h
      by_cases h6 : 6 < p
      · rw [if_pos h6] at h; exact absurd h (by simp)
      · rw [if_neg h6] at h
        cases hc : extractUInt64 (companyExt p) b with
        | none => rw [hc] at h; exact absurd h (by simp)
        | some cp =>
          cases hi : extractUInt64 (iirExt p) b with
          | none => rw [hc, hi] at h; exact absurd h (by simp)
          | some iir =>
            rw [hc, hi] at h
            dsimp only at h
            simp only [Option.some_inj, Except.ok.injEq] at h
            exact ⟨f, p, cp, iir, rfl, rfl, by omega, hc, hi, h.symm⟩

/-- Inversion of `decodeSGTIN`: a successful decode goes through
`decodeSGTINBody` with some serial string. -/
theorem decodeSGTIN_ok {b : List Nat} {s : SGTIN}
    (h : decodeSGTIN b = some (Except.ok s)) :
    ∃ serial, decodeSGTINBody b serial = some (Except.ok s) := by
  unfold decodeSGTIN at h
  by_cases h0 : b.length = 0
  · rw [if_pos h0] at h; exact absurd h (by simp)
  · rw [if_neg h0] at h
    by_cases h30 : b.getD 0 0 = 0x30
    · rw [if_pos h30] at h
      by_cases hl : b.length ≠ 12
      · rw [if_pos hl] at h; exact absurd h (by simp)
      · rw [if_neg hl] at h
        cases hs : extractUInt64 serial96Ext b with
        | none => rw [hs] at h; exact absurd h (by simp)
        | some sv => rw [hs] at h; exact ⟨_, h⟩

    · rw [if_neg h30] at h
      by_cases h36 : b.getD 0 0 = 0x36
      · rw [if_pos h36] at h
        by_cases hl : b.length ≠ 25
        · rw [if_pos hl] at h; exact absurd h (by simp)
        · rw [if_neg hl] at h
          cases ha : decodeASCIIAt (b.drop serialStartByte) serialOffsetBit with
          | none => rw [ha] at h; exact absurd h (by simp)
          | some r =>
            rw [ha] at h
            obtain ⟨sl, n, extra⟩ := r
            exact ⟨_, h⟩
      · rw [if_neg h36] at h; exact absurd h (by simp)

/-- `maxItems p = 10 ^ p` on the guarded index range. -/
theorem maxItems_eq_pow {p : Nat} (h : p ≤ 6) : maxItems p = 10 ^ p := by
  interval_cases p <;> rfl

end Epc

section C1

open Tagcode Bitextract Epc

/-- C1 counterexample: the 12-byte SGTIN-96 input with partition 1 and
indicator/item-reference field value 15 is accepted, the code decodes its
item reference as `15 - (15/10)*10*10 = -85`, but `iir mod 10^partition`
is 5. -/
theorem sgtin_iir_split_counterexample :
    decodeSGTIN [0x30, 0x04, 0, 0, 0, 0, 0x03, 0xC0, 0, 0, 0, 0] =
      some (Except.ok ⟨0, 1, 0, 1, -85, "0"⟩) ∧
    extractUInt64 (iirExt 1) [0x30, 0x04, 0, 0, 0, 0, 0x03, 0xC0, 0, 0, 0, 0] = some 15 ∧
    ((-85 : Int) ≠ (15 : Int) % 10 ^ 1) := by
  refine ⟨by decide, by decide, by decide⟩

/-- C1 amended: for every accepted input, the decoded indicator is
`iir / 10^partition`, and the decoded item reference is
`iir − indicator·10^partition·10` when the partition is positive (this equals
`iir mod 10^partition` only when the decoded indicator is 0) and 0 when the
partition is 0. -/
theorem sgtin_iir_split (b : List Nat) (s : SGTIN)
    (h : decodeSGTIN b = some (Except.ok s)) :
    ∃ (p : Nat) (iir : Nat), p ≤ 6 ∧ s.partition = (p : Int) ∧
      extractUInt64 (iirExt p) b = some iir ∧
      s.indicator = (iir : Int) / 10 ^ p ∧
      s.itemRef =
        (if 0 < p then (iir : Int) - s.indicator * 10 ^ p * 10 else 0) := by
  obtain ⟨serial, hb⟩ := decodeSGTIN_ok h
  obtain ⟨f, p, cp, iir, _, _, hp6, _, hiir, hs⟩ := decodeSGTINBody_ok hb
  subst hs
  refine ⟨p, iir, hp6, rfl, hiir, ?_, ?_⟩
  · show Int.tdiv (iir : Int) (maxItems p) = (iir : Int) / 10 ^ p
    rw [maxItems_eq_pow hp6, Int.tdiv_eq_ediv (by positivity) (by positivity)]
  · simp only [maxItems_eq_pow hp6]

/-- Witness for the amended C1 at the counterexample input. -/
theorem sgtin_iir_split_witness :
    ∃ (p : Nat) (iir : Nat), p ≤ 6 ∧ (SGTIN.mk 0 1 0 1 (-85) "0").partition = (p : Int) ∧
      extractUInt64 (iirExt p) [0x30, 0x04, 0, 0, 0, 0, 0x03, 0xC0, 0, 0, 0, 0] = some iir ∧
      (SGTIN.mk 0 1 0 1 (-85) "0").indicator = (iir : Int) / 10 ^ p ∧
      (SGTIN.mk 0 1 0 1 (-85) "0").itemRef =
        (if 0 < p then (iir : Int) - (SGTIN.mk 0 1 0 1 (-85) "0").indicator * 10 ^ p * 10
         else 0) :=
  sgtin_iir_split [0x30, 0x04, 0, 0, 0, 0, 0x03, 0xC0, 0, 0, 0, 0] ⟨0, 1, 0, 1, -85, "0"⟩
    (by decide)

end C1

namespace Epc

open Bitextract

/-- The partition value `DecodeSGTIN` works with: the 3-bit field at bits
11–13 (defined for any input; extraction succeeds whenever the input is at
least 2 bytes, in particular for both legal SGTIN lengths). -/
def partitionValue (b : List Nat) : Nat := (extractUInt64 partitionExt b).getD 0

theorem companyExt_span (p : Nat) (h : p ≤ 6) :
    (companyExt p).srcLen + (companyExt p).byteStart ≤ 12 := by
  interval_cases p <;> decide

theorem iirExt_span (p : Nat) (h : p ≤ 6) :
    (iirExt p).srcLen + (iirExt p).byteStart ≤ 12 := by
  interval_cases p <;> decide

/-- For an input of at least 12 bytes, `decodeSGTINBody` never panics: it
returns the partition error exactly when the 3-bit partition field exceeds 6
and otherwise succeeds. -/
theorem decodeSGTINBody_total (b : List Nat) (serial : String) (h12 : 12 ≤ b.length) :
    (6 < partitionValue b →
      decodeSGTINBody b serial = some (Except.error DecodeErr.badPartition)) ∧
    (partitionValue b ≤ 6 → ∃ s, decodeSGTINBody b serial = some (Except.ok s)) := by
  have hfs : filterExt.srcLen + filterExt.byteStart = 2 := by decide
  have hps : partitionExt.srcLen + partitionExt.byteStart = 2 := by decide
  have hf := extractUInt64_eq_some filterExt b (by omega)
  have hp := extractUInt64_eq_some partitionExt b (by omega)
  have hpv : partitionValue b = extractVal partitionExt b := by
    unfold partitionValue; rw [hp]; rfl
  unfold decodeSGTINBody
  rw [hf, hp]
  dsimp only
  constructor
  · intro h6
    rw [if_pos (by omega)]
  · intro h6
    rw [if_neg (by omega)]
    have hc := extractUInt64_eq_some (companyExt (extractVal partitionExt b)) b
      (by have := companyExt_span (extractVal partitionExt b) (by omega); omega)
    have hi := extractUInt64_eq_some (iirExt (extractVal partitionExt b)) b
      (by have := iirExt_span (extractVal partitionExt b) (by omega); omega)
    rw [hc, hi]
    exact ⟨_, rfl⟩

end Epc

section C2

open Tagcode Bitextract Epc

/-- C2: `DecodeSGTIN` returns an error exactly when the input is empty, the
header byte is neither `0x30` nor `0x36`, the length is not 12 for header
`0x30`, the length is not 25 for header `0x36`, or the extracted 3-bit
partition value exceeds 6; every other byte-slice input yields an SGTIN with
no error (and no panic). -/
theorem decodeSGTIN_err_iff (b : List Nat) (hbytes : ∀ x ∈ b, x < 256) :
    ((∃ e, decodeSGTIN b = some (Except.error e)) ↔
      (b = [] ∨ (b.getD 0 0 ≠ 0x30 ∧ b.getD 0 0 ≠ 0x36) ∨
       (b.getD 0 0 = 0x30 ∧ b.length ≠ 12) ∨ (b.getD 0 0 = 0x36 ∧ b.length ≠ 25) ∨
       6 < partitionValue b)) ∧
    (¬ (b = [] ∨ (b.getD 0 0 ≠ 0x30 ∧ b.getD 0 0 ≠ 0x36) ∨
        (b.getD 0 0 = 0x30 ∧ b.length ≠ 12) ∨ (b.getD 0 0 = 0x36 ∧ b.length ≠ 25) ∨
        6 < partitionValue b) →
      ∃ s, decodeSGTIN b = some (Except.ok s)) := by
  by_cases h0 : b.length = 0
  · have hb : b = [] := List.length_eq_zero.mp h0
    subst hb
    constructor
    · exact ⟨fun _ => Or.inl rfl, fun _ => ⟨DecodeErr.noData, rfl⟩⟩
    · intro hn; exact absurd (Or.inl rfl) hn
  · have hne : b ≠ [] := fun hb => h0 (by rw [hb]; rfl)
    by_cases h30 : b.getD 0 0 = 0x30
    · by_cases hl : b.length = 12
      · -- header 0x30, correct length: serial extracts, body decides
        have hss : serial96Ext.srcLen + serial96Ext.byteStart = 12 := by decide
        have hs := extractUInt64_eq_some serial96Ext b (by omega)
        have hdec : decodeSGTIN b = decodeSGTINBody b (natStr (extractVal serial96Ext b)) := by
          unfold decodeSGTIN
          rw [if_neg h0, if_pos h30, if_neg (by omega), hs]
        obtain ⟨herr, hok⟩ := decodeSGTINBody_total b (natStr (extractVal serial96Ext b)) (by omega)
        by_cases h6 : 6 < partitionValue b
        · constructor
          · exact ⟨fun _ => Or.inr (Or.inr (Or.inr (Or.inr h6))),
              fun _ => ⟨DecodeErr.badPartition, by rw [hdec]; exact herr h6⟩⟩
          · intro hn; exact absurd (Or.inr (Or.inr (Or.inr (Or.inr h6)))) hn
        · obtain ⟨s, hsok⟩ := hok (by omega)
          constructor
          · constructor
            · rintro ⟨e, he⟩
              rw [hdec, hsok] at he
              exact absurd he (by simp)
            · rintro (hc | ⟨hc, _⟩ | ⟨_, hc⟩ | ⟨hc, _⟩ | hc) <;>
                first
                  | exact absurd hc hne
                  | exact absurd h30 hc
                  | exact absurd hl hc
                  | omega
          · intro _; exact ⟨s, by rw [hdec]; exact hsok⟩
      · -- header 0x30, wrong length
        have hdec : decodeSGTIN b = some (Except.error DecodeErr.badLen96) := by
          unfold decodeSGTIN
          rw [if_neg h0, if_pos h30, if_pos hl]
        constructor
        · exact ⟨fun _ => Or.inr (Or.inr (Or.inl ⟨h30, hl⟩)),
            fun _ => ⟨DecodeErr.badLen96, hdec⟩⟩
        · intro hn; exact absurd (Or.inr (Or.inr (Or.inl ⟨h30, hl⟩))) hn
    · by_cases h36 : b.getD 0 0 = 0x36
      · by_cases hl : b.length = 25
        · -- header 0x36, correct length
          rcases hax : asciiAt (b.drop serialStartByte) serialOffsetBit with ⟨sl, n, extra⟩
          have ha : decodeASCIIAt (b.drop serialStartByte) serialOffsetBit =
              some (sl, n, extra) := by
            unfold decodeASCIIAt
            rw [if_neg (by decide), hax]
          have hdec : decodeSGTIN b =
              decodeSGTINBody b (if extra then asciiStr sl else asciiStr (sl.take n)) := by
            unfold decodeSGTIN
            rw [if_neg h0, if_neg h30, if_pos h36, if_neg (by omega), ha]
          obtain ⟨herr, hok⟩ :=
            decodeSGTINBody_total b (if extra then asciiStr sl else asciiStr (sl.take n))
              (by omega)
          by_cases h6 : 6 < partitionValue b
          · constructor
            · exact ⟨fun _ => Or.inr (Or.inr (Or.inr (Or.inr h6))),
                fun _ => ⟨DecodeErr.badPartition, by rw [hdec]; exact herr h6⟩⟩
            · intro hn; exact absurd (Or.inr (Or.inr (Or.inr (Or.inr h6)))) hn
          · obtain ⟨s, hsok⟩ := hok (by omega)
            constructor
            · constructor
              · rintro ⟨e, he⟩
                rw [hdec, hsok] at he
                exact absurd he (by simp)
              · rintro (hc | ⟨hc, _⟩ | ⟨hc, _⟩ | ⟨_, hc⟩ | hc) <;>
                  first
                    | exact absurd hc hne
                    | exact absurd h36 hc
                    | exact absurd hl hc
                    | omega
            · intro _; exact ⟨s, by rw [hdec]; exact hsok⟩
        · -- header 0x36, wrong length
          have hdec : decodeSGTIN b = some (Except.error DecodeErr.badLen198) := by
            unfold decodeSGTIN
            rw [if_neg h0, if_neg h30, if_pos h36, if_pos hl]
          constructor
          · exact ⟨fun _ => Or.inr (Or.inr (Or.inr (Or.inl ⟨h36, hl⟩))),
              fun _ => ⟨DecodeErr.badLen198, hdec⟩⟩
          · intro hn; exact absurd (Or.inr (Or.inr (Or.inr (Or.inl ⟨h36, hl⟩)))) hn
      · -- unknown header
        have hdec : decodeSGTIN b = some (Except.error DecodeErr.badHeader) := by
          unfold decodeSGTIN
          rw [if_neg h0, if_neg h30, if_neg h36]
        constructor
        · exact ⟨fun _ => Or.inr (Or.inl ⟨h30, h36⟩), fun _ => ⟨DecodeErr.badHeader, hdec⟩⟩
        · intro hn; exact absurd (Or.inr (Or.inl ⟨h30, h36⟩)) hn

/-- Witness for C2 at the partition-0 test vector (a decodable input). -/
theorem decodeSGTIN_err_iff_witness :
    ∃ s, decodeSGTIN [0x30, 0, 0, 0, 0, 0, 0x04, 0x40, 0, 0, 0, 1] =
      some (Except.ok s) :=
  (decodeSGTIN_err_iff [0x30, 0, 0, 0, 0, 0, 0x04, 0x40, 0, 0, 0, 1]
    (by decide)).2 (by decide)

end C2

section C3

open Tagcode Bitextract Epc

/-- C3 counterexample: on the single non-zero byte `0xFF` at offset 2 (an
undersized input) the code sets the trailing-garbage flag, although the claim
allows the flag only for a single all-zero byte. -/
theorem decodeASCII_undersized_counterexample :
    decodeASCIIAt [255] 2 = some ([], 0, true) ∧ (255 : Nat) ≠ 0 := by
  refine ⟨by decide, by decide⟩

/-- C3 amended: for an undersized input (`len(data)*8 − offset < 7`) at a
legal offset, the result is the empty string with null-terminator index 0,
and the trailing-garbage flag is set exactly when the data is a single byte
whose value is not zero. -/
theorem decodeASCII_undersized (data : List Nat) (offset : Nat)
    (h7 : offset ≤ 7) (hu : data.length * 8 < offset + 7) :
    decodeASCIIAt data offset =
      some ([], 0, data.length == 1 && data.getD 0 0 != 0) := by
  unfold decodeASCIIAt asciiAt
  rw [if_neg (by omega)]
  have h0 : (data.length * 8 - offset) / 7 = 0 := by omega
  simp only [h0, if_true]

/-- Witness for the amended C3 at `data = [0]`, `offset = 3`. -/
theorem decodeASCII_undersized_witness :
    decodeASCIIAt [0] 3 =
      some ([], 0, [(0 : Nat)].length == 1 && [(0 : Nat)].getD 0 0 != 0) :=
  decodeASCII_undersized [0] 3 (by decide) (by decide)

end C3

namespace Epc

/-- The valid filter values are exactly 0, 1, 2, 4, 6 and 7. -/
theorem filterIsValid_iff (f : Int) :
    filterIsValid f = true ↔ (f = 0 ∨ f = 1 ∨ f = 2 ∨ f = 4 ∨ f = 6 ∨ f = 7) := by
  unfold filterIsValid
  simp only [Bool.and_eq_true, decide_eq_true_eq, Bool.not_eq_true', Bool.or_eq_false_iff,
    beq_eq_false_iff_ne, ne_eq]
  omega

end Epc

section C4

open Tagcode Bitextract Epc

/-- C4 counterexample: filter value 8 is in the claimed valid set
`{0, 1, 2, 4, 6, 7, 8, 9}`, yet `ValidateRanges` rejects an otherwise valid
SGTIN with that filter, on account of the filter. -/
theorem validateRanges_filter_counterexample :
    validateRanges ⟨8, 0, 0, 0, 0, "1"⟩ = some VErr.filter ∧
    ((8 : Int) = 0 ∨ (8 : Int) = 1 ∨ (8 : Int) = 2 ∨ (8 : Int) = 4 ∨
     (8 : Int) = 6 ∨ (8 : Int) = 7 ∨ (8 : Int) = 8 ∨ (8 : Int) = 9) := by
  refine ⟨by decide, by decide⟩

/-- C4 amended: `ValidateRanges` fails on any SGTIN whose filter is outside
`{0, 1, 2, 4, 6, 7}`, never fails on account of the filter for a filter in
that set, and exactly the two reserved values 3 and 5 inside the 3-bit range
are rejected as invalid. -/
theorem validateRanges_filter (s : SGTIN) :
    (¬ (s.filter = 0 ∨ s.filter = 1 ∨ s.filter = 2 ∨ s.filter = 4 ∨
        s.filter = 6 ∨ s.filter = 7) →
      validateRanges s ≠ none) ∧
    ((s.filter = 0 ∨ s.filter = 1 ∨ s.filter = 2 ∨ s.filter = 4 ∨
      s.filter = 6 ∨ s.filter = 7) →
      validateRanges s ≠ some VErr.filter) ∧
    filterIsValid 3 = false ∧ filterIsValid 5 = false := by
  refine ⟨?_, ?_, by decide, by decide⟩
  · intro hout hnone
    have hv : filterIsValid s.filter = true := by
      unfold validateRanges at hnone
      split_ifs at hnone
      simp_all
    exact hout ((filterIsValid_iff s.filter).mp hv)
  · intro hin hfil
    have hv : filterIsValid s.filter = true := (filterIsValid_iff s.filter).mpr hin
    unfold validateRanges at hfil
    split_ifs at hfil <;> simp_all

/-- Witness for the amended C4 at a reserved filter value (3) and at a valid
one (0). -/
theorem validateRanges_filter_witness :
    validateRanges ⟨3, 0, 0, 0, 0, "x"⟩ ≠ none ∧
    validateRanges ⟨0, 0, 0, 0, 0, "x"⟩ ≠ some VErr.filter :=
  ⟨(validateRanges_filter ⟨3, 0, 0, 0, 0, "x"⟩).1 (by decide),
   (validateRanges_filter ⟨0, 0, 0, 0, 0, "x"⟩).2.1 (by decide)⟩

end C4

namespace Epc

/-- One unescape step on a complete `%xy` pattern consumes the whole
pattern. -/
theorem unescF_step_pct (a b d : Char) (rest : List Char) (fu : Nat)
    (h : unescPair a b = some d) :
    unescListF (fu + 1) ('%' :: a :: b :: rest) = d :: unescListF fu rest := by
  simp [unescListF, h]

/-- One unescape step on a character other than `%` emits it unchanged. -/
theorem unescF_step_ord (c : Char) (rest : List Char) (fu : Nat) (h : c ≠ '%') :
    unescListF (fu + 1) (c :: rest) = c :: unescListF fu rest := by
  simp [unescListF, h]

/-- Each non-null character either escapes to a full `%xy` pattern that
unescapes back to it, or is left alone and is not `%`. -/
theorem escChar_spec (c : Char) (hc : c ≠ Char.ofNat 0) :
    (∃ a b, escChar c = ['%', a, b] ∧ unescPair a b = some c) ∨
    (escChar c = [c] ∧ c ≠ '%') := by
  by_cases h1 : c = '"'
  · exact Or.inl ⟨'2', '2', by subst h1; decide, by subst h1; decide⟩
  by_cases h2 : c = '#'
  · exact Or.inl ⟨'2', '3', by subst h2; decide, by subst h2; decide⟩
  by_cases h3 : c = '%'
  · exact Or.inl ⟨'2', '5', by subst h3; decide, by subst h3; decide⟩
  by_cases h4 : c = '&'
  · exact Or.inl ⟨'2', '6', by subst h4; decide, by subst h4; decide⟩
  by_cases h5 : c = '/'
  · exact Or.inl ⟨'2', 'F', by subst h5; decide, by subst h5; decide⟩
  by_cases h6 : c = '<'
  · exact Or.inl ⟨'3', 'C', by subst h6; decide, by subst h6; decide⟩
  by_cases h7 : c = '>'
  · exact Or.inl ⟨'3', 'E', by subst h7; decide, by subst h7; decide⟩
  by_cases h8 : c = '?'
  · exact Or.inl ⟨'3', 'F', by subst h8; decide, by subst h8; decide⟩
  exact Or.inr ⟨by simp [escChar, h1, h2, h3, h4, h5, h6, h7, h8, hc], h3⟩

/-- Unescaping undoes escaping, character by character, for any null-free
character list (with any sufficient step bound). -/
theorem unescF_escList : ∀ (l : List Char) (fuel : Nat),
    (∀ c ∈ l, c ≠ Char.ofNat 0) → (escList l).length ≤ fuel →
    unescListF fuel (escList l) = l := by
  intro l
  induction l with
  | nil => intro fuel _ _; cases fuel <;> rfl
  | cons c t ih =>
    intro fuel hnn hf
    have hnt : ∀ x ∈ t, x ≠ Char.ofNat 0 := fun x hx => hnn x (List.mem_cons_of_mem c hx)
    have hnc : c ≠ Char.ofNat 0 := hnn c (List.mem_cons_self c t)
    rcases escChar_spec c hnc with ⟨a, b, hab, hpair⟩ | ⟨hord, hpct⟩
    · have hf' : (escList t).length + 3 ≤ fuel := by
        simp only [escList, hab, List.length_append, List.length_cons, List.length_nil] at hf
        omega
      cases fuel with
      | zero => omega
      | succ fu =>
        simp only [escList, hab, List.cons_append, List.nil_append]
        rw [unescF_step_pct a b c (escList t) fu hpair, ih fu hnt (by omega)]
    · have hf' : (escList t).length + 1 ≤ fuel := by
        simp only [escList, hord, List.length_append, List.length_cons, List.length_nil] at hf
        omega
      cases fuel with
      | zero => omega
      | succ fu =>
        simp only [escList, hord, List.cons_append, List.nil_append]
        rw [unescF_step_ord c (escList t) fu hpct, ih fu hnt (by omega)]

end Epc

section C8

open Tagcode Bitextract Epc

/-- C8: `UnescapeGS1 ∘ EscapeGS1` is the identity on every string of
non-null characters (in particular on strings of unescaped reserved
characters and other permitted characters), while `EscapeGS1 ∘ UnescapeGS1`
is not the identity in general, e.g. on `"/"`. -/
theorem gs1_escape_roundtrip :
    (∀ s : String, (∀ c ∈ s.data, c ≠ Char.ofNat 0) →
      unescapeGS1 (escapeGS1 s) = s) ∧
    escapeGS1 (unescapeGS1 "/") ≠ "/" := by
  constructor
  · intro s hs
    show String.mk (unescList (escList s.data)) = s
    rw [unescList, unescF_escList s.data (escList s.data).length hs le_rfl]
  · decide

/-- Witness for C8 at `"a/b?"`. -/
theorem gs1_escape_roundtrip_witness :
    unescapeGS1 (escapeGS1 "a/b?") = "a/b?" :=
  gs1_escape_roundtrip.1 "a/b?" (by decide)

end C8

namespace Epc

/-- `Nat.ldiff 1 m` keeps only the complement of `m`'s lowest bit. -/
theorem ldiff_one (m : Nat) : Nat.ldiff 1 m = 1 - m % 2 := by
  rcases Nat.even_or_odd m with ⟨j, hj⟩ | ⟨j, hj⟩ <;> subst hj <;>
    · unfold Nat.ldiff
      rw [Nat.bitwise]
      simp
      split_ifs <;> omega

/-- Go's `k & 1` (two's-complement) is `k`'s bit-0, i.e. `k mod 2`. -/
theorem land_one (k : Int) : Int.land k 1 = k % 2 := by
  cases k with
  | ofNat m =>
    show ((m &&& 1 : Nat) : Int) = Int.ofNat m % 2
    rw [Nat.and_one_is_mod, show Int.ofNat m = (m : Int) from rfl]
    omega
  | negSucc m =>
    show ((Nat.ldiff 1 m : Nat) : Int) = Int.negSucc m % 2
    rw [ldiff_one, Int.negSucc_eq]
    omega

/-- Following the spec's words for the check-sum: the digit of the component
at 1-indexed GTIN position `p = d1 + i` is weighted ×3 when `p` is odd and
×1 when `p` is even; the sum runs digit-by-digit from the least-significant
digit.  (Second definition for comparison with the source's `checkSum`.) -/
def specCheckSumF : Nat → Nat → Int → Int → Int
  | 0, _, _, _ => 0
  | fuel + 1, n, d1, i =>
    if n = 0 then 0
    else ((n : Int) % 10) * (if (d1 + i) % 2 = 0 then 1 else 3) +
      specCheckSumF fuel (n / 10) d1 (i + 1)

/-- The spec-worded weighted digit sum of component `n` anchored at `d1`. -/
def specCheckSum (n d1 : Int) : Int :=
  if n ≤ 0 then 0 else specCheckSumF n.toNat n.toNat d1 0

theorem checkSumAux_eq_spec :
    ∀ (fuel n : Nat) (d1 i : Int), checkSumAux fuel n d1 i = specCheckSumF fuel n d1 i := by
  intro fuel
  induction fuel with
  | zero => intros; rfl
  | succ fu ih =>
    intro n d1 i
    simp only [checkSumAux, specCheckSumF]
    by_cases hn : n = 0
    · simp [hn]
    · rw [if_neg hn, if_neg hn, ih]
      have hw : 2 * Int.land (d1 - i) 1 + 1 = if (d1 + i) % 2 = 0 then 1 else 3 := by
        rw [land_one]
        by_cases hp : (d1 + i) % 2 = 0
        · rw [if_pos hp]; omega
        · rw [if_neg hp]; omega
      rw [hw]

theorem checkSum_eq_spec (n d1 : Int) : checkSum n d1 = specCheckSum n d1 := by
  unfold checkSum specCheckSum
  split_ifs
  · rfl
  · exact checkSumAux_eq_spec _ _ _ _

theorem checkSumAux_nonneg : ∀ (fuel n : Nat) (d1 i : Int), 0 ≤ checkSumAux fuel n d1 i := by
  intro fuel
  induction fuel with
  | zero => intros; exact le_refl 0
  | succ fu ih =>
    intro n d1 i
    simp only [checkSumAux]
    by_cases hn : n = 0
    · simp [hn]
    · rw [if_neg hn]
      have h1 : (0 : Int) ≤ (n : Int) % 10 := Int.emod_nonneg _ (by norm_num)
      have h2 : (0 : Int) ≤ 2 * Int.land (d1 - i) 1 + 1 := by
        rw [land_one]
        omega
      have := ih (n / 10) d1 (i + 1)
      positivity

theorem checkSum_nonneg (n d1 : Int) : 0 ≤ checkSum n d1 := by
  unfold checkSum
  split_ifs
  · exact le_refl 0
  · exact checkSumAux_nonneg _ _ _ _

end Epc

section C9

open Tagcode Bitextract Epc

/-- C9: for non-negative field values, `checkDigit` is in `[0, 9]` and equals
`(10 − (totalSum mod 10)) mod 10`, where `totalSum` is the sum of the
spec-worded weighted digit sums of the item reference anchored at position 1,
the company prefix anchored at `13 − partition`, and the indicator anchored
at 13. -/
theorem checkDigit_spec (s : SGTIN)
    (_h1 : 0 ≤ s.itemRef) (_h2 : 0 ≤ s.companyPfx) (_h3 : 0 ≤ s.indicator) :
    (0 ≤ checkDigit s ∧ checkDigit s ≤ 9) ∧
    checkDigit s =
      (10 - (specCheckSum s.itemRef 1 + specCheckSum s.companyPfx (13 - s.partition) +
        specCheckSum s.indicator 13) % 10) % 10 := by
  unfold checkDigit
  dsimp only
  have hnn : 0 ≤ checkSum s.itemRef 1 + checkSum s.companyPfx (13 - s.partition) +
      checkSum s.indicator 13 := by
    have := checkSum_nonneg s.itemRef 1
    have := checkSum_nonneg s.companyPfx (13 - s.partition)
    have := checkSum_nonneg s.indicator 13
    omega
  rw [Int.tmod_eq_emod hnn (by norm_num),
    Int.tmod_eq_emod (by omega : (0 : Int) ≤ 10 -
      (checkSum s.itemRef 1 + checkSum s.companyPfx (13 - s.partition) +
        checkSum s.indicator 13) % 10) (by norm_num)]
  refine ⟨⟨by omega, by omega⟩, ?_⟩
  rw [checkSum_eq_spec s.itemRef 1, checkSum_eq_spec s.companyPfx (13 - s.partition),
    checkSum_eq_spec s.indicator 13]

/-- Witness for C9 at the SGTIN decoded from the C5 scenario. -/
theorem checkDigit_spec_witness :
    (0 ≤ checkDigit ⟨0, 0, 1, 1, 0, "1"⟩ ∧ checkDigit ⟨0, 0, 1, 1, 0, "1"⟩ ≤ 9) ∧
    checkDigit ⟨0, 0, 1, 1, 0, "1"⟩ =
      (10 - (specCheckSum 0 1 + specCheckSum 1 (13 - 0) + specCheckSum 1 13) % 10) % 10 :=
  checkDigit_spec ⟨0, 0, 1, 1, 0, "1"⟩ (by decide) (by decide) (by decide)

end C9

namespace Bitextract

/-- An in-place write loop leaves the buffer length unchanged. -/
theorem foldl_set_length (σ g : Nat → Nat) :
    ∀ (is : List Nat) (l : List Nat),
      (is.foldl (fun (q : List Nat) i => q.set (σ i) (g i)) l).length = l.length := by
  intro is
  induction is with
  | nil => intro l; rfl
  | cons a as ih =>
    intro l
    simp only [List.foldl_cons]
    rw [ih]
    exact List.length_set l _ _

/-- An in-place write loop that only writes below index `K` leaves every
entry at an index at or above `K` unchanged. -/
theorem foldl_set_frame (σ g : Nat → Nat) (K : Nat) :
    ∀ (is : List Nat) (l : List Nat), (∀ i ∈ is, σ i < K) →
      ∀ j, K ≤ j →
        (is.foldl (fun (q : List Nat) i => q.set (σ i) (g i)) l)[j]? = l[j]? := by
  intro is
  induction is with
  | nil => intro l _ j _; rfl
  | cons a as ih =>
    intro l hall j hj
    simp only [List.foldl_cons]
    rw [ih (l.set (σ a) (g a)) (fun i hi => hall i (List.mem_cons_of_mem a hi)) j hj]
    exact List.getElem?_set_ne (by have := hall a (List.mem_cons_self a as); omega)

/-- `mkBitExtractor` always produces at least one destination byte when the
bit length is positive. -/
theorem mkBitExtractor_dstLen_pos (start len : Nat) (h : 1 ≤ len) :
    1 ≤ (mkBitExtractor start len).dstLen := by
  simp only [mkBitExtractor]
  split_ifs with hc <;> omega

/-- The `ExtractTo` write loop preserves the destination length. -/
theorem extractToCore_length (be : BitExtractor) (dest src : List Nat) :
    (extractToCore be dest src).length = dest.length := by
  unfold extractToCore
  cases be.bias <;>
    simp only [List.length_set] <;>
    first
      | exact foldl_set_length (fun i => i) _ _ dest
      | rw [foldl_set_length (fun k => k + 1) _ _ (dest.set 0 _), List.length_set]

/-- The `ExtractTo` write loop writes only indices below `dstLen`. -/
theorem extractToCore_frame (be : BitExtractor) (dest src : List Nat)
    (hpos : 1 ≤ be.dstLen) (j : Nat) (hj : be.dstLen ≤ j) :
    (extractToCore be dest src)[j]? = dest[j]? := by
  unfold extractToCore
  cases be.bias
  · rw [List.getElem?_set_ne (by omega)]
    exact foldl_set_frame (fun i => i) _ be.dstLen (List.range be.dstLen) dest
      (fun i hi => List.mem_range.mp hi) j hj
  · rw [List.getElem?_set_ne (by omega)]
    rw [foldl_set_frame (fun k => k + 1) _ be.dstLen (List.range (be.dstLen - 1))
      (dest.set 0 _)
      (fun k hk => by have := List.mem_range.mp hk; show k + 1 < be.dstLen; omega) j hj]
    exact List.getElem?_set_ne (by omega)
  · rw [List.getElem?_set_ne (by omega)]
    exact foldl_set_frame (fun i => i) _ be.dstLen (List.range be.dstLen) dest
      (fun i hi => List.mem_range.mp hi) j hj

end Bitextract

section C10

open Tagcode Bitextract

/-- C10: for every `BitExtractor` (built from a positive bit length) and
buffers satisfying `ExtractTo`'s preconditions, `ExtractTo` succeeds and
writes only the first `ByteLength()` bytes of the destination: the length is
preserved and every byte at an index at or above `ByteLength()` is unchanged
(the source buffer is never written at all). -/
theorem extractTo_frame (start len : Nat) (hlen : 1 ≤ len) (dest src : List Nat)
    (hsrc : (mkBitExtractor start len).srcLen + (mkBitExtractor start len).byteStart ≤
      src.length)
    (hdest : (mkBitExtractor start len).dstLen ≤ dest.length) :
    ∃ d, extractTo (mkBitExtractor start len) dest src = some d ∧
      d.length = dest.length ∧
      ∀ j, (mkBitExtractor start len).dstLen ≤ j → d[j]? = dest[j]? := by
  refine ⟨extractToCore (mkBitExtractor start len) dest src,
    extractTo_eq_some _ _ _ hsrc hdest, extractToCore_length _ _ _, fun j hj => ?_⟩
  exact extractToCore_frame _ _ _ (mkBitExtractor_dstLen_pos start len hlen) j hj

/-- Witness for C10: extracting bits 3–6 of a one-byte source into a
three-byte destination touches only the first byte. -/
theorem extractTo_frame_witness :
    ∃ d, extractTo (mkBitExtractor 3 4) [1, 2, 3] [171] = some d ∧
      d.length = ([1, 2, 3] : List Nat).length ∧
      ∀ j, (mkBitExtractor 3 4).dstLen ≤ j → d[j]? = ([1, 2, 3] : List Nat)[j]? :=
  extractTo_frame 3 4 (by decide) [1, 2, 3] [171] (by decide) (by decide)

end C10

namespace Bitextract

/-- The `Read` clear loop turns the first `m` buffer bytes into zeros and
leaves the rest: the result is `replicate m 0 ++ p.drop m`. -/
theorem foldl_clear (p : List Nat) :
    ∀ m, m ≤ p.length →
      (List.range m).foldl (fun (q : List Nat) i => q.set i 0) p =
        List.replicate m 0 ++ p.drop m := by
  intro m
  induction m with
  | zero => intro _; simp
  | succ n ih =>
    intro hm
    rw [List.range_succ, List.foldl_append, ih (by omega)]
    simp only [List.foldl_cons, List.foldl_nil]
    rw [List.set_append_right _ _ (by simp), List.length_replicate, Nat.sub_self,
      List.drop_eq_getElem_cons (by omega : n < p.length), List.set_cons_zero,
      List.replicate_succ', List.append_assoc]
    rfl

/-- Every extractor built by the `SetWidths` loop spans bits inside the
accumulated total bit length. -/
theorem setWidthsAux_extractors :
    ∀ (ws : List Int) (off : Nat) (es : List BitExtractor) (total bl : Nat),
      setWidthsAux ws off = some (es, total, bl) →
      off ≤ total ∧
        ∀ ex ∈ es, ∃ s l, 1 ≤ l ∧ ex = mkBitExtractor s l ∧ s + l ≤ total := by
  intro ws
  induction ws with
  | nil =>
    intro off es total bl h
    simp only [setWidthsAux, Option.some_inj, Prod.mk.injEq] at h
    obtain ⟨he, ht, _⟩ := h
    subst he
    exact ⟨by omega, by simp⟩
  | cons w ws ih =>
    intro off es total bl h
    simp only [setWidthsAux] at h
    split at h
    · exact absurd h (by simp)
    · cases hr : setWidthsAux ws (off + w.toNat) with
      | none => rw [hr] at h; exact absurd h (by simp)
      | some r =>
        rw [hr] at h
        obtain ⟨es', t', bl'⟩ := r
        simp only [Option.map_some', Option.some_inj, Prod.mk.injEq] at h
        obtain ⟨he, ht, _⟩ := h
        obtain ⟨hoff, hall⟩ := ih (off + w.toNat) es' t' bl' hr
        subst he ht
        refine ⟨by omega, fun ex hex => ?_⟩
        rcases List.mem_cons.mp hex with hex | hex
        · exact ⟨off, w.toNat, by omega, hex, by omega⟩
        · exact hall ex hex

/-- The source span of an extractor built from `(start, len)` with `len ≥ 1`
is exactly the bytes holding bits `start` through `start + len − 1`. -/
theorem mkBitExtractor_span (start len : Nat) (h : 1 ≤ len) :
    (mkBitExtractor start len).srcLen + (mkBitExtractor start len).byteStart =
      (start + len - 1) / 8 + 1 := by
  simp only [mkBitExtractor]
  split_ifs with h1 <;> omega

end Bitextract

section C7

open Tagcode Bitextract

/-- C7: for a `BitReader` built from a widths list over data accepted by
`SetData`, in the `Reading` state: a `Read` into a buffer shorter than the
current field's destination length reports the short-buffer error, leaves the
cursor and bound data unchanged, and writes nothing; a subsequent `Read` into
a sufficiently large buffer succeeds, zero-fills the leading bytes, writes the
extracted field right-aligned into the trailing `dstLen` bytes, advances the
cursor by one, and reports `len(buf)` bytes written. -/
theorem bitReader_read (widths : List Int) (exp : BitExploder) (k : Nat)
    (data p q : List Nat) (ex : BitExtractor)
    (hw : setWidths widths = some exp)
    (hdata : exp.bitLength ≤ 8 * data.length)
    (hk : k < exp.extractors.length)
    (hex : exp.extractors.getD k (mkBitExtractor 0 1) = ex)
    (hshort : p.length < ex.dstLen)
    (hbig : ex.dstLen ≤ q.length) :
    read ⟨exp, k, data⟩ p = some (ReadResult.shortBuffer, ⟨exp, k, data⟩, p) ∧
    ∃ d, extractTo ex (q.drop (q.length - ex.dstLen)) data = some d ∧
      d.length = ex.dstLen ∧
      read ⟨exp, k, data⟩ q =
        some (ReadResult.ok q.length, ⟨exp, k + 1, data⟩,
          List.replicate (q.length - ex.dstLen) 0 ++ d) := by
  -- the current extractor spans bits inside the exploder's bit length
  have hmem : ex ∈ exp.extractors := by
    rw [← hex, List.getD_eq_getElem exp.extractors _ hk]
    exact List.getElem_mem hk
  obtain ⟨s, l, hl1, hbe, hsl⟩ : ∃ s l, 1 ≤ l ∧ ex = mkBitExtractor s l ∧
      s + l ≤ exp.bitLength := by
    unfold setWidths at hw
    split at hw
    · exact absurd hw (by simp)
    · cases hr : setWidthsAux widths 0 with
      | none => rw [hr] at hw; exact absurd hw (by simp)
      | some r =>
        rw [hr] at hw
        obtain ⟨es', t', bl'⟩ := r
        simp only [Option.map_some', Option.some_inj] at hw
        obtain ⟨_, hall⟩ := setWidthsAux_extractors widths 0 es' t' bl' hr
        have hmem' : ex ∈ es' := by
          have : exp.extractors = es' := by rw [← hw]
          rwa [this] at hmem
        obtain ⟨s, l, h1, h2, h3⟩ := hall ex hmem'
        have hbit : exp.bitLength = t' := by rw [← hw]
        exact ⟨s, l, h1, h2, by omega⟩
  have hsrc : ex.srcLen + ex.byteStart ≤ data.length := by
    rw [hbe, mkBitExtractor_span s l hl1]
    omega
  constructor
  · -- short buffer: error, no cursor movement, no write
    unfold Bitextract.read
    dsimp only
    rw [if_neg (by omega), hex, if_pos hshort]
  · -- large buffer: zero-fill, right-aligned extraction, cursor advance
    have hm : q.length - ex.dstLen ≤ q.length := by omega
    have hclear := foldl_clear q (q.length - ex.dstLen) hm
    have hdroplen : (q.drop (q.length - ex.dstLen)).length = ex.dstLen := by
      rw [List.length_drop]; omega
    have hext := extractTo_eq_some ex (q.drop (q.length - ex.dstLen)) data
      (by omega) (by omega)
    refine ⟨extractToCore ex (q.drop (q.length - ex.dstLen)) data, hext, ?_, ?_⟩
    · rw [extractToCore_length, hdroplen]
    · unfold Bitextract.read
      dsimp only
      rw [if_neg (by omega), hex, if_neg (by omega)]
      rw [hclear]
      rw [List.drop_left' (by simp), List.take_left' (by simp), hext]
      rfl

/-- Witness for C7: a one-field reader (width 4) over one data byte, read
first with an empty buffer and then with a two-byte buffer. -/
theorem bitReader_read_witness :
    Bitextract.read ⟨⟨4, 1, [mkBitExtractor 0 4]⟩, 0, [171]⟩ [] =
      some (ReadResult.shortBuffer, ⟨⟨4, 1, [mkBitExtractor 0 4]⟩, 0, [171]⟩, []) ∧
    ∃ d, extractTo (mkBitExtractor 0 4)
        (List.drop (([7, 7] : List Nat).length - (mkBitExtractor 0 4).dstLen) [7, 7]) [171] =
        some d ∧
      d.length = (mkBitExtractor 0 4).dstLen ∧
      Bitextract.read ⟨⟨4, 1, [mkBitExtractor 0 4]⟩, 0, [171]⟩ [7, 7] =
        some (ReadResult.ok ([7, 7] : List Nat).length, ⟨⟨4, 1, [mkBitExtractor 0 4]⟩, 1, [171]⟩,
          List.replicate (([7, 7] : List Nat).length - (mkBitExtractor 0 4).dstLen) 0 ++ d) :=
  bitReader_read [4] ⟨4, 1, [mkBitExtractor 0 4]⟩ 0 [171] [] [7, 7] (mkBitExtractor 0 4)
    (by decide) (by decide) (by decide) (by decide) (by decide) (by decide)

end C7
